import Mathlib

/-!
Shallow embedding of `src/loan.rs` from the simple_interest_calculator
repository.

Modelling conventions:
* `rust_decimal::Decimal` values are modelled as exact rationals `ℚ`
  (the spec treats amounts as arbitrary-precision decimals).
* `chrono::NaiveDate` is modelled as a day ordinal `ℤ`;
  `end.signed_duration_since(start).num_days()` is then `end - start`
  and `date + Duration::days(k)` is `date + k`.
* Rust `&str` text is modelled as `List Char`; `str::to_uppercase` is
  `List.map Char.toUpper`.
* The `as u64` / `as i64` integer casts in `Schedule::new` are modelled
  explicitly as two's-complement reinterpretations modulo `2^64`.
-/

/-- Rust enum `CurrencyCode` from loan.rs. -/
inductive CurrencyCode : Type where
  | GBP : CurrencyCode
  | EUR : CurrencyCode
  | USD : CurrencyCode
deriving DecidableEq, Repr

/-- `CurrencyCode::symbol` from loan.rs. -/
def CurrencyCode.symbol : CurrencyCode → String
  | CurrencyCode.GBP => "£"
  | CurrencyCode.EUR => "€"
  | CurrencyCode.USD => "$"

/-- Rust struct `UnknownCurrencyError` from loan.rs: carries the offending
input text. -/
structure UnknownCurrencyError : Type where
  currency_code : List Char
deriving DecidableEq, Repr

/-- `impl TryFrom<&str> for CurrencyCode` from loan.rs: uppercase the
input, match it against the three recognized codes, otherwise return an
`UnknownCurrencyError` holding the original (non-uppercased) input text. -/
def CurrencyCode.tryFrom (value : List Char) : Except UnknownCurrencyError CurrencyCode :=
  let upper := value.map Char.toUpper
  if upper = "GBP".data then Except.ok CurrencyCode.GBP
  else if upper = "EUR".data then Except.ok CurrencyCode.EUR
  else if upper = "USD".data then Except.ok CurrencyCode.USD
  else Except.error (UnknownCurrencyError.mk value)

/-- Rust struct `Money` from loan.rs: a decimal value tagged with a
currency code. -/
structure Money : Type where
  value : ℚ
  code : CurrencyCode
deriving DecidableEq, Repr

/-- `impl Add<Decimal> for Money` from loan.rs: adds a bare decimal to a
`Money`, keeping the money's currency code; no currency check exists. -/
def Money.addDecimal (self : Money) (rhs : ℚ) : Money :=
  Money.mk (self.value + rhs) self.code

/-- `impl Add<Money> for Decimal` from loan.rs: adds a `Money` to a bare
decimal, the result takes the money operand's currency code. -/
def decimalAddMoney (self : ℚ) (rhs : Money) : Money :=
  Money.mk (self + rhs.value) rhs.code

/-- Round a rational to the nearest integer, ties to even: the semantics
of `rust_decimal::RoundingStrategy::MidpointNearestEven` applied after
scaling by `10^2`. -/
def roundHalfEven (x : ℚ) : ℤ :=
  let f : ℤ := ⌊x⌋
  let r : ℚ := x - (f : ℚ)
  if r < 1/2 then f
  else if 1/2 < r then f + 1
  else if f % 2 = 0 then f else f + 1

/-- `bankers_round` from loan.rs: round the money value half-to-even to
2 decimal places (`round_dp_with_strategy(2, MidpointNearestEven)`),
keeping the currency code. -/
def bankers_round (money : Money) : Money :=
  Money.mk ((roundHalfEven (money.value * 100) : ℚ) / 100) money.code

/-- Rust struct `Entry` from loan.rs: one row of the schedule. -/
structure Entry : Type where
  daily_interest_without_margin : Money
  daily_interest_with_margin : Money
  accrual_date : ℤ
  days_elapsed : ℕ
deriving DecidableEq, Repr

/-- Rust struct `Schedule` from loan.rs: an owned vector of entries. -/
structure Schedule : Type where
  entries : List Entry
deriving DecidableEq, Repr

/-- Rust struct `TotalInterest` from loan.rs. -/
structure TotalInterest : Type where
  with_margin : Money
  without_margin : Money
deriving DecidableEq, Repr

/-- Rust struct `Loan` from loan.rs. -/
structure Loan : Type where
  start_date : ℤ
  end_date : ℤ
  loan_amount : ℚ
  base_rate : ℚ
  margin : ℚ
  currency : CurrencyCode
deriving DecidableEq, Repr

/-- `Loan::new` from loan.rs: plain field assembly; no validation of the
date range (or of anything else) is performed. -/
def Loan.new (start_date end_date : ℤ) (loan_amount base_rate margin : ℚ)
    (currency : CurrencyCode) : Loan :=
  Loan.mk start_date end_date loan_amount base_rate margin currency

/-- `DAYS_IN_YEAR` from loan.rs. -/
def DAYS_IN_YEAR : ℕ := 365

/-- `daily_interest_without_margin` from loan.rs:
`loan_amount * (base_rate / 365 / 100)` tagged with the loan's currency. -/
def daily_interest_without_margin (loan : Loan) : Money :=
  let daily_rate : ℚ := loan.base_rate / (DAYS_IN_YEAR : ℚ) / 100
  Money.mk (loan.loan_amount * daily_rate) loan.currency

/-- `daily_interest_with_margin` from loan.rs:
`loan_amount * ((base_rate + margin) / 365 / 100)` tagged with the loan's
currency. -/
def daily_interest_with_margin (loan : Loan) : Money :=
  let daily_rate : ℚ := (loan.base_rate + loan.margin) / (DAYS_IN_YEAR : ℚ) / 100
  Money.mk (loan.loan_amount * daily_rate) loan.currency

/-- The Rust cast `i64 as u64` (two's-complement reinterpretation), on
the mathematical integer carried by the `i64`; `18446744073709551616 = 2^64`. -/
def i64_as_u64 (d : ℤ) : ℕ := (d % 18446744073709551616).toNat

/-- The Rust cast `u64 as i64` (two's-complement reinterpretation), on
the mathematical natural carried by the `u64`;
`9223372036854775808 = 2^63`. -/
def u64_as_i64 (u : ℕ) : ℤ :=
  ((u : ℤ) + 9223372036854775808) % 18446744073709551616 - 9223372036854775808

/-- `Schedule::new` from loan.rs: for `days_elapsed` in
`0 ..= (end_date - start_date).num_days() as u64`, build an entry at
`accrual_date = start_date + Duration::days(days_elapsed as i64)` with the
two daily interest amounts of the loan. -/
def Schedule.new (loan : Loan) : Schedule :=
  let duration : ℤ := loan.end_date - loan.start_date
  Schedule.mk
    ((List.range (i64_as_u64 duration + 1)).map (fun days_elapsed =>
      Entry.mk
        (daily_interest_without_margin loan)
        (daily_interest_with_margin loan)
        (loan.start_date + u64_as_i64 days_elapsed)
        days_elapsed))

/-- `Schedule::calculate_interest` from loan.rs: `None` on an empty entry
vector; otherwise fold over the entries, adding each entry's
banker's-rounded amounts to the two accumulators (through the
`Decimal + Money` addition), and tag the totals with the first entry's
with-margin currency code. -/
def Schedule.calculate_interest (self : Schedule) : Option TotalInterest :=
  if h : self.entries = [] then none
  else
    let folded : ℚ × ℚ := self.entries.foldl
      (fun acc entry =>
        ((decimalAddMoney acc.1 (bankers_round entry.daily_interest_with_margin)).value,
         (decimalAddMoney acc.2 (bankers_round entry.daily_interest_without_margin)).value))
      ((0 : ℚ), (0 : ℚ))
    let currency_code : CurrencyCode :=
      (self.entries.head h).daily_interest_with_margin.code
    some (TotalInterest.mk
      (Money.mk folded.1 currency_code)
      (Money.mk folded.2 currency_code))

/-- `impl Iterator for Schedule` from loan.rs: `next` is `entries.pop()`,
which removes and returns the last element of the vector.  Modelled in
state-passing style: the returned schedule is the mutated receiver. -/
def Schedule.next (self : Schedule) : Option Entry × Schedule :=
  (self.entries.getLast?, Schedule.mk self.entries.dropLast)

/-- Driving the iterator: repeatedly call `Schedule.next`, collecting the
yielded entries in order until it returns `None`. -/
def Schedule.collectIter (s : Schedule) : List Entry :=
  match h : s.entries.getLast? with
  | none => []
  | some e => e :: Schedule.collectIter (Schedule.mk s.entries.dropLast)
termination_by s.entries.length
decreasing_by
  have hne : s.entries ≠ [] := by
    intro hnil
    rw [hnil] at h
    simp at h
  have hpos : 0 < s.entries.length := List.length_pos.mpr hne
  have hdl : s.entries.dropLast.length = s.entries.length - 1 :=
    List.length_dropLast s.entries
  simp only [hdl]
  omega

/-- A schedule of two entries whose per-day amounts both lie exactly on a
half-cent tie (`0.005`): rounding per entry and summing gives `0.00`,
while summing first and rounding once gives `0.01`. -/
def tieEntryA : Entry :=
  Entry.mk (Money.mk (1/200) CurrencyCode.USD) (Money.mk (1/200) CurrencyCode.USD) 0 0

/-- Second tie entry, one day later. -/
def tieEntryB : Entry :=
  Entry.mk (Money.mk (1/200) CurrencyCode.USD) (Money.mk (1/200) CurrencyCode.USD) 1 1

/-- The two-entry tie schedule. -/
def tieSched : Schedule := Schedule.mk [tieEntryA, tieEntryB]

/-! ## Helper lemmas -/

lemma foldl_round_acc (l : List Entry) (a b : ℚ) :
    l.foldl
      (fun acc entry =>
        ((decimalAddMoney acc.1 (bankers_round entry.daily_interest_with_margin)).value,
         (decimalAddMoney acc.2 (bankers_round entry.daily_interest_without_margin)).value))
      (a, b)
    = (a + (l.map (fun e => (bankers_round e.daily_interest_with_margin).value)).sum,
       b + (l.map (fun e => (bankers_round e.daily_interest_without_margin).value)).sum) := by
  induction l generalizing a b with
  | nil => simp
  | cons e t ih =>
      simp only [List.foldl_cons]
      rw [ih]
      simp [decimalAddMoney, add_assoc]

lemma round_tie_arg : roundHalfEven ((1/200 : ℚ) * 100) = 0 := by
  have h : ((1:ℚ)/200) * 100 = 1/2 := by norm_num
  rw [h]
  norm_num [roundHalfEven]

lemma round_cent_arg : roundHalfEven ((1/100 : ℚ) * 100) = 1 := by
  have h : ((1:ℚ)/100) * 100 = 1 := by norm_num
  rw [h]
  norm_num [roundHalfEven]

lemma bankers_round_half_cent :
    bankers_round (Money.mk (1/200) CurrencyCode.USD) = Money.mk 0 CurrencyCode.USD := by
  simp only [bankers_round]
  rw [round_tie_arg]
  norm_num

lemma bankers_round_one_cent :
    bankers_round (Money.mk (1/100) CurrencyCode.USD) = Money.mk (1/100) CurrencyCode.USD := by
  simp only [bankers_round]
  rw [round_cent_arg]
  norm_num

/-! ## Claims -/

/-- C1: for every non-empty schedule, `calculate_interest` returns totals
that are the per-entry banker's-rounded amounts summed (for each of the
with-margin and without-margin figures, tagged with the first entry's
with-margin currency); and on the two-entry half-cent tie schedule this
per-entry-then-sum order differs from rounding the unrounded sum once at
the end. -/
theorem calculate_interest_rounds_per_entry :
    (∀ (s : Schedule) (h : s.entries ≠ []),
      s.calculate_interest = some (TotalInterest.mk
        (Money.mk ((s.entries.map (fun e => (bankers_round e.daily_interest_with_margin).value)).sum)
          ((s.entries.head h).daily_interest_with_margin.code))
        (Money.mk ((s.entries.map (fun e => (bankers_round e.daily_interest_without_margin).value)).sum)
          ((s.entries.head h).daily_interest_with_margin.code)))) ∧
    ((tieSched.entries.map (fun e => (bankers_round e.daily_interest_with_margin).value)).sum ≠
      (bankers_round (Money.mk
        ((tieSched.entries.map (fun e => e.daily_interest_with_margin.value)).sum)
        CurrencyCode.USD)).value) := by
  constructor
  · intro s h
    unfold Schedule.calculate_interest
    rw [dif_neg h]
    rw [foldl_round_acc]
    simp only [zero_add]
  · simp only [tieSched, tieEntryA, tieEntryB, List.map_cons, List.map_nil, List.sum_cons,
      List.sum_nil]
    have h12 : (1:ℚ)/200 + (1/200 + 0) = 1/100 := by norm_num
    rw [h12, bankers_round_half_cent, bankers_round_one_cent]
    norm_num

/-- Witness for C1 at the concrete two-entry tie schedule. -/
theorem calculate_interest_rounds_per_entry_witness :
    tieSched.calculate_interest = some (TotalInterest.mk
      (Money.mk ((tieSched.entries.map (fun e => (bankers_round e.daily_interest_with_margin).value)).sum)
        CurrencyCode.USD)
      (Money.mk ((tieSched.entries.map (fun e => (bankers_round e.daily_interest_without_margin).value)).sum)
        CurrencyCode.USD)) :=
  calculate_interest_rounds_per_entry.1 tieSched (by decide)

/-- C2: the per-day interest of a loan is
`loan_amount * (base_rate / 365 / 100)` without margin and
`loan_amount * ((base_rate + margin) / 365 / 100)` with margin, at full
precision and tagged with the loan's currency. -/
theorem daily_interest_formulas (loan : Loan) :
    daily_interest_without_margin loan =
      Money.mk (loan.loan_amount * (loan.base_rate / 365 / 100)) loan.currency ∧
    daily_interest_with_margin loan =
      Money.mk (loan.loan_amount * ((loan.base_rate + loan.margin) / 365 / 100)) loan.currency := by
  constructor <;> simp [daily_interest_without_margin, daily_interest_with_margin, DAYS_IN_YEAR]

/-- C3: for start_date ≤ end_date (within the `i64` day range every real
`NaiveDate` difference satisfies), the schedule has exactly
`(end_date - start_date) + 1` entries; a same-day loan produces exactly
the single entry with `days_elapsed = 0` at `start_date`. -/
theorem schedule_new_length (loan : Loan)
    (hle : loan.start_date ≤ loan.end_date)
    (hlt : loan.end_date - loan.start_date < 2 ^ 64) :
    ((Schedule.new loan).entries.length : ℤ) = (loan.end_date - loan.start_date) + 1 ∧
    (loan.start_date = loan.end_date →
      (Schedule.new loan).entries =
        [Entry.mk (daily_interest_without_margin loan) (daily_interest_with_margin loan)
          loan.start_date 0]) := by
  have h64 : (2:ℤ) ^ 64 = 18446744073709551616 := by norm_num
  rw [h64] at hlt
  constructor
  · simp only [Schedule.new, List.length_map, List.length_range, i64_as_u64]
    push_cast
    omega
  · intro heq
    have hz : loan.end_date - loan.start_date = 0 := by omega
    have h0 : u64_as_i64 0 = 0 := by decide
    have hr1 : List.range 1 = [0] := rfl
    simp [Schedule.new, i64_as_u64, hz, hr1, h0]

/-- Witness for C3: a three-day loan (days 0..2) has 3 entries; a
same-day loan (day 5) has exactly the one `days_elapsed = 0` entry. -/
theorem schedule_new_length_witness :
    ((Schedule.new (Loan.new 0 2 100000 5 1 CurrencyCode.USD)).entries.length : ℤ) = (2 - 0) + 1 ∧
    (Schedule.new (Loan.new 5 5 100000 5 1 CurrencyCode.USD)).entries =
      [Entry.mk (daily_interest_without_margin (Loan.new 5 5 100000 5 1 CurrencyCode.USD))
        (daily_interest_with_margin (Loan.new 5 5 100000 5 1 CurrencyCode.USD)) 5 0] :=
  ⟨(schedule_new_length (Loan.new 0 2 100000 5 1 CurrencyCode.USD) (by decide)
      (by norm_num [Loan.new])).1,
   (schedule_new_length (Loan.new 5 5 100000 5 1 CurrencyCode.USD) (by decide)
      (by norm_num [Loan.new])).2 rfl⟩

/-- C4: for start_date ≤ end_date (within the `i64`/date range), entry `i`
of the schedule has `days_elapsed = i` (the 0-based offset) and
`accrual_date = start_date + i`; accrual dates are strictly ascending (so
no duplicates) and consecutive entries differ by exactly one day (so no
gaps). -/
theorem schedule_new_strictly_ascending (loan : Loan)
    (hle : loan.start_date ≤ loan.end_date)
    (hlt : loan.end_date - loan.start_date < 2 ^ 63) :
    (∀ i (hi : i < (Schedule.new loan).entries.length),
      ((Schedule.new loan).entries.get ⟨i, hi⟩).days_elapsed = i ∧
      ((Schedule.new loan).entries.get ⟨i, hi⟩).accrual_date = loan.start_date + i) ∧
    (∀ i j (hi : i < (Schedule.new loan).entries.length)
        (hj : j < (Schedule.new loan).entries.length), i < j →
      ((Schedule.new loan).entries.get ⟨i, hi⟩).accrual_date <
        ((Schedule.new loan).entries.get ⟨j, hj⟩).accrual_date) ∧
    (∀ i (hi : i < (Schedule.new loan).entries.length)
        (hi1 : i + 1 < (Schedule.new loan).entries.length),
      ((Schedule.new loan).entries.get ⟨i + 1, hi1⟩).accrual_date =
        ((Schedule.new loan).entries.get ⟨i, hi⟩).accrual_date + 1) := by
  have h63 : (2:ℤ) ^ 63 = 9223372036854775808 := by norm_num
  rw [h63] at hlt
  have hlen : (Schedule.new loan).entries.length =
      i64_as_u64 (loan.end_date - loan.start_date) + 1 := by
    simp [Schedule.new]
  have hcast : ∀ i, i < (Schedule.new loan).entries.length → u64_as_i64 i = (i : ℤ) := by
    intro i hi
    rw [hlen] at hi
    unfold i64_as_u64 at hi
    unfold u64_as_i64
    omega
  have hpt : ∀ i (hi : i < (Schedule.new loan).entries.length),
      ((Schedule.new loan).entries.get ⟨i, hi⟩).days_elapsed = i ∧
      ((Schedule.new loan).entries.get ⟨i, hi⟩).accrual_date = loan.start_date + i := by
    intro i hi
    have hget : (Schedule.new loan).entries.get ⟨i, hi⟩ =
        Entry.mk (daily_interest_without_margin loan) (daily_interest_with_margin loan)
          (loan.start_date + u64_as_i64 i) i := by
      simp only [Schedule.new, List.get_eq_getElem, List.getElem_map, List.getElem_range]
    rw [hget, hcast i hi]
    exact ⟨rfl, rfl⟩
  refine ⟨hpt, ?_, ?_⟩
  · intro i j hi hj hij
    rw [(hpt i hi).2, (hpt j hj).2]
    omega
  · intro i hi hi1
    rw [(hpt i hi).2, (hpt (i + 1) hi1).2]
    push_cast
    ring

/-- Witness for C4 at the concrete three-day loan, entry index 1. -/
theorem schedule_new_strictly_ascending_witness :
    ((Schedule.new (Loan.new 0 2 100000 5 1 CurrencyCode.USD)).entries.get
        ⟨1, by decide⟩).days_elapsed = 1 ∧
    ((Schedule.new (Loan.new 0 2 100000 5 1 CurrencyCode.USD)).entries.get
        ⟨1, by decide⟩).accrual_date = 0 + (1 : ℕ) :=
  (schedule_new_strictly_ascending (Loan.new 0 2 100000 5 1 CurrencyCode.USD)
    (by decide) (by norm_num [Loan.new])).1 1 (by decide)

/-- C5 (code evaluation at the failing input): `Loan::new` performs no
date-range validation, so a loan with start_date = 1 > end_date = 0 is
constructed without error; `Schedule::new` then reinterprets the negative
day count as `u64` and the schedule would carry `2^64` entries instead of
the construction being rejected. -/
theorem loan_new_accepts_inverted_range :
    Loan.new 1 0 100000 5 1 CurrencyCode.USD = Loan.mk 1 0 100000 5 1 CurrencyCode.USD ∧
    (Schedule.new (Loan.new 1 0 100000 5 1 CurrencyCode.USD)).entries.length = 2 ^ 64 := by
  refine ⟨rfl, ?_⟩
  simp only [Schedule.new, List.length_map, List.length_range, i64_as_u64, Loan.new]
  rw [show (2:ℕ)^64 = 18446744073709551616 by norm_num]
  decide

/-- C6 (counterexample): the code permits adding a bare untagged decimal
to a Money — the operation is total and performs no currency check. -/
theorem money_add_untagged_decimal_cex :
    (Money.mk 2 CurrencyCode.GBP).addDecimal 1 = Money.mk 3 CurrencyCode.GBP := by
  norm_num [Money.addDecimal]

/-- C6 (amended): Money addition in loan.rs is defined between a Money and
a bare untagged Decimal, in both operand orders, with no currency
precondition; the result is the value-wise sum tagged with the Money
operand's currency.  No Money + Money addition exists. -/
theorem money_add_untagged_decimal (m : Money) (d : ℚ) :
    m.addDecimal d = Money.mk (m.value + d) m.code ∧
    decimalAddMoney d m = Money.mk (d + m.value) m.code :=
  ⟨rfl, rfl⟩

/-- C7: computing the total of a schedule with zero entries yields `none`
(an absent result, distinct from a zero total), and every non-empty
schedule produces a total. -/
theorem calculate_interest_empty_none (s : Schedule) :
    (Schedule.mk []).calculate_interest = none ∧
    (s.entries ≠ [] → (s.calculate_interest).isSome = true) := by
  constructor
  · simp [Schedule.calculate_interest]
  · intro h
    simp [Schedule.calculate_interest, h]

/-- Witness for C7 at the concrete two-entry tie schedule. -/
theorem calculate_interest_empty_none_witness :
    ((Schedule.mk []).calculate_interest = none) ∧ (tieSched.calculate_interest).isSome = true :=
  ⟨(calculate_interest_empty_none tieSched).1,
   (calculate_interest_empty_none tieSched).2 (by decide)⟩

/-- C8: currency parsing uppercases the input first and succeeds exactly
when the uppercased text is GBP, EUR or USD (hence case-insensitive); any
other input fails with an UnknownCurrencyError carrying the original
offending text. -/
theorem tryFrom_uppercase_closed_set (value : List Char) :
    (CurrencyCode.tryFrom value = Except.ok CurrencyCode.GBP ↔ value.map Char.toUpper = "GBP".data) ∧
    (CurrencyCode.tryFrom value = Except.ok CurrencyCode.EUR ↔ value.map Char.toUpper = "EUR".data) ∧
    (CurrencyCode.tryFrom value = Except.ok CurrencyCode.USD ↔ value.map Char.toUpper = "USD".data) ∧
    (¬(value.map Char.toUpper = "GBP".data ∨ value.map Char.toUpper = "EUR".data ∨
        value.map Char.toUpper = "USD".data) →
      CurrencyCode.tryFrom value = Except.error (UnknownCurrencyError.mk value)) := by
  simp only [CurrencyCode.tryFrom]
  split_ifs with h1 h2 h3 <;> simp_all

/-- Witness for C8: the invalid text XYZ12 is rejected with an error
carrying that exact text. -/
theorem tryFrom_uppercase_closed_set_witness :
    CurrencyCode.tryFrom "XYZ12".data = Except.error (UnknownCurrencyError.mk "XYZ12".data) :=
  (tryFrom_uppercase_closed_set "XYZ12".data).2.2.2 (by decide)

/-- C9: with positive loan_amount and nonnegative margin, every entry of
the built schedule has with-margin daily interest at least the
without-margin daily interest. -/
theorem schedule_margin_dominates (loan : Loan)
    (hamt : 0 < loan.loan_amount) (hmar : 0 ≤ loan.margin) :
    ∀ e ∈ (Schedule.new loan).entries,
      e.daily_interest_without_margin.value ≤ e.daily_interest_with_margin.value := by
  intro e he
  simp only [Schedule.new, List.mem_map] at he
  obtain ⟨i, -, rfl⟩ := he
  simp only [daily_interest_without_margin, daily_interest_with_margin]
  have hD : (0:ℚ) < (DAYS_IN_YEAR : ℚ) := by norm_num [DAYS_IN_YEAR]
  have hrate : loan.base_rate / (DAYS_IN_YEAR : ℚ) / 100 ≤
      (loan.base_rate + loan.margin) / (DAYS_IN_YEAR : ℚ) / 100 := by
    gcongr
    linarith
  exact mul_le_mul_of_nonneg_left hrate hamt.le

/-- Witness for C9 at the concrete three-day loan's first entry. -/
theorem schedule_margin_dominates_witness :
    (daily_interest_without_margin (Loan.new 0 2 100000 5 1 CurrencyCode.USD)).value ≤
      (daily_interest_with_margin (Loan.new 0 2 100000 5 1 CurrencyCode.USD)).value :=
  schedule_margin_dominates (Loan.new 0 2 100000 5 1 CurrencyCode.USD)
    (by norm_num [Loan.new]) (by norm_num [Loan.new])
    (Entry.mk (daily_interest_without_margin (Loan.new 0 2 100000 5 1 CurrencyCode.USD))
      (daily_interest_with_margin (Loan.new 0 2 100000 5 1 CurrencyCode.USD))
      (0 + u64_as_i64 0) 0)
    (List.mem_map_of_mem _ (by decide))

/-- C10: `next` removes and returns the last stored entry (a `Vec::pop`),
so driving the iterator consumes the schedule and yields the entries in
the reverse of the stored (ascending accrual_date) order. -/
theorem schedule_iterator_consumes_in_reverse :
    ∀ s : Schedule,
      (Schedule.next s).1 = s.entries.getLast? ∧
      ((Schedule.next s).2).entries = s.entries.dropLast ∧
      Schedule.collectIter s = s.entries.reverse := by
  intro s
  refine ⟨rfl, rfl, ?_⟩
  obtain ⟨l⟩ := s
  induction l using List.reverseRecOn with
  | nil =>
      rw [Schedule.collectIter]
      split
      · rfl
      · next e heq => simp at heq
  | append_singleton xs x ih =>
      rw [Schedule.collectIter]
      split
      · next heq => simp at heq
      · next e heq =>
          simp only [List.getLast?_concat, Option.some.injEq] at heq
          subst heq
          simp only [List.dropLast_concat]
          rw [ih]
          simp
